import Mathlib

/-!
Shallow embedding of the kern-profile QEMU TCG plugin (src/plugin/plugin.c),
the sampling and stack-capture engine of the repository.  Pure Lean models of:

* the clock gate inlined at the top of `vcpu_insn_exec` (lines 106-114),
* the frame-pointer stack walker loop (lines 119-158),
* the sample encoder / `writev` record layout (lines 160-173),
* the whole `vcpu_insn_exec` sampling hook,
* `qemu_plugin_install` argument parsing and configuration (lines 195-245).

Theorems check the specification's claims about these components.
-/

namespace KernProfile

/-- `struct timeval`: `tv_sec : time_t`, `tv_usec : suseconds_t`, both signed. -/
structure Timeval where
  tv_sec : Int
  tv_usec : Int
deriving DecidableEq

/-- Hard limit to the stack depth to observe (plugin.c line 16). -/
def MAX_DEPTH : Nat := 64

/-- Clock gate test, plugin.c lines 108-111: the callback returns early
(no sample) when `tv.tv_sec < next.tv_sec || (tv.tv_sec == next.tv_sec &&
tv.tv_usec < next.tv_usec)`; `should_sample` is the negation of that
early-return condition. -/
def should_sample (next_sample_ts now : Timeval) : Bool :=
  if now.tv_sec < next_sample_ts.tv_sec ∨
      (now.tv_sec = next_sample_ts.tv_sec ∧ now.tv_usec < next_sample_ts.tv_usec)
  then false
  else true

/-- Gate advance, plugin.c lines 112-114: `next_sample_ts = tv;
next_sample_ts.tv_sec += delay / 1000000; next_sample_ts.tv_usec += delay % 1000000;`
C division on `suseconds_t` truncates toward zero, hence `Int.tdiv`/`Int.tmod`. -/
def advance (now : Timeval) (sample_delay : Int) : Timeval :=
  { tv_sec := now.tv_sec + Int.tdiv sample_delay 1000000
    tv_usec := now.tv_usec + Int.tmod sample_delay 1000000 }

/-- Modelled from the spec: real wall-clock arithmetic.  `addUsec t k` is the
normalized timestamp `k` microseconds after `t`, as `gettimeofday` would report
it (`tv_usec` in `[0, 1000000)`).  Used only to state claims about "a check at
`now + interval` microseconds"; not part of the source. -/
def addUsec (t : Timeval) (k : Int) : Timeval :=
  let total := t.tv_sec * 1000000 + t.tv_usec + k
  { tv_sec := total / 1000000, tv_usec := total % 1000000 }

/-- Guest memory, byte addressed: `mem a = some b` means the byte at guest
address `a` is readable with value `b`; `none` means reading it fails. -/
def Mem : Type := Nat → Option Nat

/-- `cpu_memory_rw_debug(cpu, addr, buf, len, false)` (plugin.c lines 136, 149):
reads `len` consecutive bytes starting at `addr`; fails (nonzero return) iff
any byte of the range is unreadable. -/
def readMem (mem : Mem) (addr : Nat) : Nat → Option (List Nat)
  | 0 => some []
  | len + 1 =>
    match mem addr, readMem mem (addr + 1) len with
    | some b, some bs => some (b :: bs)
    | _, _ => none

/-- Little-endian value of a byte list, each byte taken mod 256 (the host is
x86, little-endian, so `*(uint32_t *) &buf[0]` / `*(uint64_t *) &buf[0]`
decode the buffer's first 4 or 8 bytes this way). -/
def fromLE : List Nat → Nat
  | [] => 0
  | b :: bs => b % 256 + 256 * fromLE bs

/-- `uint8_t ptr_width = long_mode ? 8 : 4;` (plugin.c line 123). -/
def ptrWidth (long_mode : Bool) : Nat :=
  if long_mode then 8 else 4

/-- The walker loop of `vcpu_insn_exec` (plugin.c lines 131-158), returning the
frames after frame 0 that end up counted in the emitted record.  Each
iteration reads `ctx.target_ulong_width` bytes at `frame_ptr + ptr_width`
(return address) and, on success, `ctx.target_ulong_width` bytes at
`frame_ptr` (saved caller frame pointer); either failure breaks the loop.
A break at the second read happens before `++i`, so the return address just
stored in `frames_buf[i]` is not covered by the emitted count `i`: the
iteration contributes a frame only when both reads succeed.  Decoding uses
the first `ptr_width` bytes of the buffer (`uint64_t` cast in long mode,
`uint32_t` cast otherwise, zero-extended). -/
def walkAux (mem : Mem) (target_ulong_width : Nat) (long_mode : Bool) :
    Nat → Nat → List Nat
  | _, 0 => []
  | frame_ptr, fuel + 1 =>
    match readMem mem (frame_ptr + ptrWidth long_mode) target_ulong_width with
    | none => []
    | some ret_bytes =>
      match readMem mem frame_ptr target_ulong_width with
      | none => []
      | some fp_bytes =>
        fromLE (ret_bytes.take (ptrWidth long_mode)) ::
          walkAux mem target_ulong_width long_mode
            (fromLE (fp_bytes.take (ptrWidth long_mode))) fuel

/-- The full emitted sample of one due invocation (plugin.c lines 126-158):
`frames_buf[0] = (uint64_t) eip`, then the walker loop runs `i` from 1 to
`MAX_DEPTH - 1`. -/
def walk (mem : Mem) (target_ulong_width : Nat) (long_mode : Bool)
    (eip frame_ptr : Nat) : List Nat :=
  eip % 2 ^ 64 :: walkAux mem target_ulong_width long_mode frame_ptr (MAX_DEPTH - 1)

/-- Modelled from the spec's words for claim C2 (§4.3): identical walker
except that both per-slot reads request exactly `pointer_width` bytes
("Read `pointer_width` bytes at `frame_ptr + pointer_width`", "Read
`pointer_width` bytes at `frame_ptr`") and the decoded value is the whole
buffer read.  Behaviour the claim under test does not speak to (which frames
a break within an iteration leaves counted) is kept as in the code, so the
comparison isolates the read width. -/
def walkClaimAux (mem : Mem) (long_mode : Bool) : Nat → Nat → List Nat
  | _, 0 => []
  | frame_ptr, fuel + 1 =>
    match readMem mem (frame_ptr + ptrWidth long_mode) (ptrWidth long_mode) with
    | none => []
    | some ret_bytes =>
      match readMem mem frame_ptr (ptrWidth long_mode) with
      | none => []
      | some fp_bytes =>
        fromLE ret_bytes :: walkClaimAux mem long_mode (fromLE fp_bytes) fuel

/-- A memory where the 8 bytes at addresses 0..7 are readable (value 1) and
everything above is unreadable: a 4-byte read at address 4 succeeds while an
8-byte read at address 4 fails. -/
def memC2 : Mem := fun a => if a < 8 then some 1 else none

/-- Little-endian byte serialization of a value on `n` bytes: the layout of a
`uint64_t` (or the low bytes of one) in host memory on x86. -/
def toLE : Nat → Nat → List Nat
  | 0, _ => []
  | n + 1, v => v % 256 :: toLE n (v / 256)

/-- The Sample Encoder (plugin.c lines 160-173): the `writev` iovec pair emits
exactly one byte holding the frame count `i` (a `uint8_t`) followed by
`i * sizeof(uint64_t)` bytes holding `frames_buf[0..i-1]` in host (x86,
little-endian) byte order. -/
def encode (frames : List Nat) : List Nat :=
  frames.length % 256 :: frames.flatMap (toLE 8)

/-- Modelled from the spec: the §6 record grammar
`record := count:u8 frames:frame[count]`, `frame := addr:u64 (native byte
order)` — parse `count` 8-byte little-endian frames and require the bytes to
be exactly consumed. -/
def decodeFrames : Nat → List Nat → Option (List Nat)
  | 0, bs => if bs = [] then some [] else none
  | n + 1, bs =>
    if 8 ≤ bs.length then
      match decodeFrames n (bs.drop 8) with
      | some fs => some (fromLE (bs.take 8) :: fs)
      | none => none
    else none

/-- Modelled from the spec: parse one §6 record from a byte stream. -/
def decodeRecord : List Nat → Option (Nat × List Nat)
  | [] => none
  | c :: rest =>
    match decodeFrames c rest with
    | some fs => some (c, fs)
    | none => none

/-- Result of one invocation of the sampling hook: the gate state it leaves
behind, the record bytes it hands to `writev` (if due), and whether the
write-failure warning was printed. -/
structure HookResult where
  next_sample_ts : Timeval
  record : Option (List Nat)
  warned : Bool
deriving DecidableEq

/-- The sampling hook `vcpu_insn_exec` (plugin.c lines 103-174): check the
gate; if not due, return unchanged; if due, advance the gate (lines 112-114,
before the walk), walk the stack, encode the sample and hand it to `writev`;
a failed write only prints a warning (lines 172-173) — the hook still returns
normally. -/
def vcpu_insn_exec (sample_delay : Int) (next_sample_ts now : Timeval)
    (target_ulong_width : Nat) (long_mode : Bool) (eip frame_ptr : Nat)
    (mem : Mem) (write_ok : Bool) : HookResult :=
  if should_sample next_sample_ts now then
    { next_sample_ts := advance now sample_delay
      record := some (encode (walk mem target_ulong_width long_mode eip frame_ptr))
      warned := !write_ok }
  else
    { next_sample_ts := next_sample_ts, record := none, warned := false }

/-- `strchr(name, '=')` splitting of one plugin argument (plugin.c lines
214-217): the part before the first `'='` and the part after it; `none` when
the argument contains no `'='` (strchr returns NULL). -/
def splitEq : List Char → Option (List Char × List Char)
  | [] => none
  | c :: rest =>
    if c = '=' then some ([], rest)
    else
      match splitEq rest with
      | none => none
      | some (n, v) => some (c :: n, v)

/-- Accumulator of `atoi`: consume leading decimal digits. -/
def atoiDigits : List Char → Nat → Nat
  | [], acc => acc
  | c :: rest, acc =>
    if c.isDigit then atoiDigits rest (acc * 10 + (c.toNat - 48)) else acc

/-- C `atoi` as used on the `delay` value (plugin.c line 221): skip leading
spaces, accept an optional sign, read leading digits, 0 when there are none.
(Overflow is ignored: the inputs of interest are small.) -/
def atoi (s : List Char) : Int :=
  match s.dropWhile (fun c => c = ' ') with
  | '-' :: rest => -(atoiDigits rest 0 : Int)
  | '+' :: rest => (atoiDigits rest 0 : Int)
  | s₁ => (atoiDigits s₁ 0 : Int)

/-- Outcome of the argument-parsing loop of `qemu_plugin_install`. -/
inductive ParseResult where
  | ok (out_path : List Char) (sample_delay : Int)
  | invalid
  | crash
deriving DecidableEq

/-- The argument loop of `qemu_plugin_install` (plugin.c lines 212-227),
carrying the running values of `out_path` (default "qemu-profile") and
`sample_delay` (default 10).  `name = "out"` replaces the output path,
`name = "delay"` replaces the delay with `atoi(val)` — with no validation of
the value — and any other key takes the `invalid argument` error return.
When the argument has no `'='`, `strchr` returns NULL and the following
null-terminator store through `name_end` dereferences a null pointer:
undefined behaviour, modelled as `crash`. -/
def parseArgs : List (List Char) → List Char → Int → ParseResult
  | [], out_path, sample_delay => .ok out_path sample_delay
  | a :: rest, out_path, sample_delay =>
    match splitEq a with
    | none => .crash
    | some (name, val) =>
      if name = "out".toList then parseArgs rest val sample_delay
      else if name = "delay".toList then parseArgs rest out_path (atoi val)
      else .invalid

/-- Outcome of `qemu_plugin_install`: `installed` means the function reached
the callback registrations (lines 242-243) and returned 0; `failed code`
means it returned the nonzero `code` without registering anything; `crash`
is the null-pointer dereference of the argument loop. -/
inductive InstallResult where
  | installed (out_path : List Char) (sample_delay : Int) (target_ulong_width : Nat)
  | failed (code : Int)
  | crash
deriving DecidableEq

/-- The part of `qemu_plugin_install` after target detection, for a fixed
`target_ulong_width`: parse the arguments, then open the output file
(`open_fails` abstracts `open(out_path, ...)` setting `errno`), then register
the callbacks. -/
def installWith (target_ulong_width : Nat) (args : List (List Char))
    (open_fails : List Char → Bool) : InstallResult :=
  match parseArgs args ("qemu-profile".toList) 10 with
  | .crash => .crash
  | .invalid => .failed (-1)
  | .ok out_path sample_delay =>
    if open_fails out_path then .failed 1
    else .installed out_path sample_delay target_ulong_width

/-- `qemu_plugin_install` (plugin.c lines 195-245): target `"x86_64"` gives
`target_ulong_width = 8`, `"i386"` gives 4, any other target name is the
`unsupported target` error return -1. -/
def qemu_plugin_install (target_name : String) (args : List (List Char))
    (open_fails : List Char → Bool) : InstallResult :=
  if target_name = "x86_64" then installWith 8 args open_fails
  else if target_name = "i386" then installWith 4 args open_fails
  else .failed (-1)

/-- C1: the clock gate fires iff `now >= next_due` lexicographically on
(seconds, microseconds); strictly smaller seconds, or equal seconds with
strictly smaller microseconds, means "not yet due". -/
theorem should_sample_iff_lex_ge (next now : Timeval) :
    (should_sample next now = true ↔
      (next.tv_sec < now.tv_sec ∨
        (next.tv_sec = now.tv_sec ∧ next.tv_usec ≤ now.tv_usec)))
    ∧ (now.tv_sec = next.tv_sec → now.tv_usec < next.tv_usec →
        should_sample next now = false)
    ∧ (now.tv_sec < next.tv_sec → should_sample next now = false) := by
  unfold should_sample
  refine ⟨?_, ?_, ?_⟩ <;> split <;> simp_all <;> omega

/-- Witness for C1 at a concrete input: one microsecond before the due time,
the gate does not fire. -/
theorem should_sample_iff_lex_ge_w :
    should_sample ⟨5, 10⟩ ⟨5, 9⟩ = false :=
  (should_sample_iff_lex_ge ⟨5, 10⟩ ⟨5, 9⟩).2.1 (by decide) (by decide)

/-- C5 counterexample: with interval `2 > 0` and starting timestamp
`(0 s, 999999 us)`, after `advance` the stored `next_sample_ts` is the
non-normalized `(0, 1000001)`, and the real clock one microsecond later
(`now + interval - 1` microseconds) reads `(1, 0)`, which the gate compares
as already due: the check at `now + interval - 1` FIRES, contradicting the
claim that it does not fire for every interval and starting timestamp. -/
theorem advance_window_counterexample :
    0 < (2 : Int) ∧
      should_sample (advance ⟨0, 999999⟩ 2) (addUsec ⟨0, 999999⟩ (2 - 1)) = true := by
  decide

/-- C5 (amended): for interval `d > 0` and a normalized starting timestamp
whose microsecond field does not overflow one second when the sub-second part
of the interval is added (`u + d % 1000000 < 1000000`), after `advance` the
check at `now + d` microseconds fires and the check at `now + d - 1`
microseconds does not. -/
theorem advance_window (s u d : Int) (hu : 0 ≤ u)
    (hc : u + d % 1000000 < 1000000) (hd : 0 < d) :
    should_sample (advance ⟨s, u⟩ d) (addUsec ⟨s, u⟩ d) = true ∧
    should_sample (advance ⟨s, u⟩ d) (addUsec ⟨s, u⟩ (d - 1)) = false := by
  have h1 : Int.tdiv d 1000000 = d / 1000000 := Int.tdiv_eq_ediv (by omega) (by decide)
  have h2 : Int.tmod d 1000000 = d % 1000000 := Int.tmod_eq_emod (by omega) (by decide)
  unfold advance addUsec should_sample
  simp only [h1, h2]
  constructor
  · split
    · exfalso; omega
    · rfl
  · split
    · rfl
    · exfalso; omega

/-- Witness for C5 (amended) at interval 1 μs from time zero: the check one
microsecond later fires, the check at time zero after advancing does not. -/
theorem advance_window_w :
    should_sample (advance ⟨0, 0⟩ 1) (addUsec ⟨0, 0⟩ 1) = true ∧
    should_sample (advance ⟨0, 0⟩ 1) (addUsec ⟨0, 0⟩ (1 - 1)) = false :=
  advance_window 0 0 1 (by decide) (by decide) (by decide)

/-- A successful `readMem` returns exactly the requested number of bytes. -/
theorem readMem_length (mem : Mem) :
    ∀ (len addr : Nat) (bs : List Nat), readMem mem addr len = some bs → bs.length = len := by
  intro len
  induction len with
  | zero =>
    intro addr bs h
    simp [readMem] at h
    simp [← h]
  | succ n ih =>
    intro addr bs h
    unfold readMem at h
    cases hm : mem addr with
    | none => rw [hm] at h; simp at h
    | some b =>
      cases hr : readMem mem (addr + 1) n with
      | none => rw [hm, hr] at h; simp at h
      | some bs' =>
        rw [hm, hr] at h
        simp at h
        simp [← h, ih (addr + 1) bs' hr]

/-- On fully readable memory every `readMem` succeeds. -/
theorem readMem_total (mem : Mem) (h : ∀ a, (mem a).isSome) :
    ∀ (len addr : Nat), ∃ bs, readMem mem addr len = some bs := by
  intro len
  induction len with
  | zero => intro addr; exact ⟨[], rfl⟩
  | succ n ih =>
    intro addr
    obtain ⟨bs, hbs⟩ := ih (addr + 1)
    cases hm : mem addr with
    | none => have hh := h addr; rw [hm] at hh; simp at hh
    | some b => exact ⟨b :: bs, by unfold readMem; rw [hm, hbs]⟩

/-- The walker never produces more frames than its remaining fuel. -/
theorem walkAux_length_le (mem : Mem) (tw : Nat) (lm : Bool) :
    ∀ (fuel fp : Nat), (walkAux mem tw lm fp fuel).length ≤ fuel := by
  intro fuel
  induction fuel with
  | zero => intro fp; simp [walkAux]
  | succ n ih =>
    intro fp
    unfold walkAux
    cases readMem mem (fp + ptrWidth lm) tw with
    | none => simp
    | some ret_bytes =>
      cases readMem mem fp tw with
      | none => simp
      | some fp_bytes =>
        simpa using Nat.succ_le_succ (ih _)

/-- On fully readable memory the walker consumes all of its fuel. -/
theorem walkAux_total_length (mem : Mem) (tw : Nat) (lm : Bool)
    (h : ∀ a, (mem a).isSome) :
    ∀ (fuel fp : Nat), (walkAux mem tw lm fp fuel).length = fuel := by
  intro fuel
  induction fuel with
  | zero => intro fp; rfl
  | succ n ih =>
    intro fp
    obtain ⟨rb, hrb⟩ := readMem_total mem h tw (fp + ptrWidth lm)
    obtain ⟨fb, hfb⟩ := readMem_total mem h tw fp
    unfold walkAux
    rw [hrb, hfb]
    simp [ih]

/-- Step equation of the walker when both reads of an iteration succeed. -/
theorem walkAux_step (mem : Mem) (tw : Nat) (lm : Bool) (fp fuel : Nat)
    (ret_bytes fp_bytes : List Nat)
    (h1 : readMem mem (fp + ptrWidth lm) tw = some ret_bytes)
    (h2 : readMem mem fp tw = some fp_bytes) :
    walkAux mem tw lm fp (fuel + 1) =
      fromLE (ret_bytes.take (ptrWidth lm)) ::
        walkAux mem tw lm (fromLE (fp_bytes.take (ptrWidth lm))) fuel := by
  conv_lhs => rw [walkAux]
  rw [h1, h2]

/-- Step equation of the walker when the second read of an iteration fails:
the loop breaks before `++i`, so the just-decoded return address is not
covered by the emitted count. -/
theorem walkAux_snd_read_fail (mem : Mem) (tw : Nat) (lm : Bool) (fp fuel : Nat)
    (ret_bytes : List Nat)
    (h1 : readMem mem (fp + ptrWidth lm) tw = some ret_bytes)
    (h2 : readMem mem fp tw = none) :
    walkAux mem tw lm fp (fuel + 1) = [] := by
  conv_lhs => rw [walkAux]
  rw [h1, h2]

/-- Step equations of the spec-described walker. -/
theorem walkClaimAux_step (mem : Mem) (lm : Bool) (fp fuel : Nat)
    (ret_bytes fp_bytes : List Nat)
    (h1 : readMem mem (fp + ptrWidth lm) (ptrWidth lm) = some ret_bytes)
    (h2 : readMem mem fp (ptrWidth lm) = some fp_bytes) :
    walkClaimAux mem lm fp (fuel + 1) =
      fromLE ret_bytes :: walkClaimAux mem lm (fromLE fp_bytes) fuel := by
  conv_lhs => rw [walkClaimAux]
  rw [h1, h2]

/-- If the first read of an iteration fails, the walker stops with no
further frames, whatever fuel remains. -/
theorem walkAux_first_read_fail (mem : Mem) (tw : Nat) (lm : Bool) (fp : Nat)
    (h : readMem mem (fp + ptrWidth lm) tw = none) :
    ∀ fuel, walkAux mem tw lm fp fuel = [] := by
  intro fuel
  cases fuel with
  | zero => rfl
  | succ n => unfold walkAux; rw [h]

/-- C2 counterexample: with the target configured 64-bit
(`target_ulong_width = 8`) but the CPU not in long mode (`pointer_width = 4`),
on a memory whose bytes 0..7 are readable and the rest unreadable, the code's
walker (which reads `target_ulong_width = 8` bytes at `frame_ptr + 4`) fails
its first read and returns no extra frames, while the claimed walker (which
reads exactly `pointer_width = 4` bytes) succeeds and appends a frame: the
claim that each slot reads exactly `pointer_width` bytes is false. -/
theorem walk_read_width_counterexample :
    walkAux memC2 8 false 0 63 ≠ walkClaimAux memC2 false 0 63 := by
  decide

/-- C2 (amended): each slot after slot 0 reads `target_ulong_width` bytes (the
width configured at install), not `pointer_width` bytes, at
`frame_ptr + pointer_width`, and decodes the first `pointer_width` of them
zero-extended to 64 bits; when the re-queried pointer width coincides with the
configured width (x86_64 in long mode, i386 outside it) the per-slot step is
exactly as the claim states: the code's walker and the spec-described walker
agree. -/
theorem walk_read_width_eq_claim (mem : Mem) (lm : Bool) (tw : Nat)
    (htw : tw = ptrWidth lm) :
    ∀ (fuel fp : Nat), walkAux mem tw lm fp fuel = walkClaimAux mem lm fp fuel := by
  subst htw
  intro fuel
  induction fuel with
  | zero => intro fp; rfl
  | succ n ih =>
    intro fp
    cases h1 : readMem mem (fp + ptrWidth lm) (ptrWidth lm) with
    | none =>
      rw [walkAux_first_read_fail mem (ptrWidth lm) lm fp h1]
      conv_rhs => rw [walkClaimAux]
      rw [h1]
    | some ret_bytes =>
      have e1 : ret_bytes.take (ptrWidth lm) = ret_bytes := by
        rw [← readMem_length mem _ _ _ h1, List.take_length]
      cases h2 : readMem mem fp (ptrWidth lm) with
      | none =>
        rw [walkAux_snd_read_fail mem (ptrWidth lm) lm fp n ret_bytes h1 h2]
        conv_rhs => rw [walkClaimAux]
        rw [h1, h2]
      | some fp_bytes =>
        have e2 : fp_bytes.take (ptrWidth lm) = fp_bytes := by
          rw [← readMem_length mem _ _ _ h2, List.take_length]
        rw [walkAux_step mem (ptrWidth lm) lm fp n ret_bytes fp_bytes h1 h2,
          walkClaimAux_step mem lm fp n ret_bytes fp_bytes h1 h2, e1, e2, ih]

/-- Witness for C2 (amended) at a concrete input: 32-bit target
(`target_ulong_width = 4`) not in long mode, all memory readable as zero. -/
theorem walk_read_width_eq_claim_w :
    walkAux (fun _ => some 0) 4 false 0 63 = walkClaimAux (fun _ => some 0) false 0 63 :=
  walk_read_width_eq_claim (fun _ => some 0) false 4 (by decide) 63 0

/-- C4: every sample has between 1 and `MAX_DEPTH = 64` frames, frame 0 is
always the sampled entry instruction pointer, and if the very first memory
read fails the sample is exactly the singleton entry instruction pointer. -/
theorem walk_length_invariant (mem : Mem) (tw : Nat) (lm : Bool) (eip fp : Nat) :
    1 ≤ (walk mem tw lm eip fp).length ∧
    (walk mem tw lm eip fp).length ≤ MAX_DEPTH ∧
    (walk mem tw lm eip fp).head? = some (eip % 2 ^ 64) ∧
    (readMem mem (fp + ptrWidth lm) tw = none →
      walk mem tw lm eip fp = [eip % 2 ^ 64]) := by
  refine ⟨by simp [walk], ?_, by simp [walk], ?_⟩
  · have h := walkAux_length_le mem tw lm (MAX_DEPTH - 1) fp
    simp only [walk, List.length_cons, MAX_DEPTH] at *
    omega
  · intro h
    simp [walk, walkAux_first_read_fail mem tw lm fp h]

/-- Witness for C4: fully unreadable memory makes the very first read fail,
yielding the singleton sample of the entry instruction pointer. -/
theorem walk_length_invariant_w :
    walk (fun _ => none) 8 true 5 0 = [5 % 2 ^ 64] :=
  (walk_length_invariant (fun _ => none) 8 true 5 0).2.2.2 (by decide)

/-- C6: the walker applies no policy filter — whenever both per-slot reads
succeed it appends the decoded return address and continues at the decoded
next frame pointer, for every frame-pointer value (no magnitude test such as
comparing against 0xc0000000 appears); the walk stops only on a failed read
(`walkAux_first_read_fail`, and the `none` branches of `walkAux`) or on
exhausting the `MAX_DEPTH` fuel. -/
theorem walker_no_policy_filter (mem : Mem) (tw : Nat) (lm : Bool) (fp fuel : Nat)
    (ret_bytes fp_bytes : List Nat)
    (h1 : readMem mem (fp + ptrWidth lm) tw = some ret_bytes)
    (h2 : readMem mem fp tw = some fp_bytes) :
    (walkAux mem tw lm fp (fuel + 1) =
      fromLE (ret_bytes.take (ptrWidth lm)) ::
        walkAux mem tw lm (fromLE (fp_bytes.take (ptrWidth lm))) fuel) ∧
    (∀ (mem₁ : Mem) (fp₁ fuel₁ : Nat), (∀ a, (mem₁ a).isSome) →
      (walkAux mem₁ tw lm fp₁ fuel₁).length = fuel₁) :=
  ⟨walkAux_step mem tw lm fp fuel ret_bytes fp_bytes h1 h2,
    fun mem₁ fp₁ fuel₁ h => walkAux_total_length mem₁ tw lm h fuel₁ fp₁⟩

/-- Witness for C6 at a concrete input: frame pointer 0x1000 = 4096, far below
the kernel-space threshold 0xc0000000, is still followed when its reads
succeed. -/
theorem walker_no_policy_filter_w :
    walkAux (fun _ => some 0) 8 true 4096 (0 + 1) =
      fromLE (([0, 0, 0, 0, 0, 0, 0, 0] : List Nat).take 8) ::
        walkAux (fun _ => some 0) 8 true
          (fromLE (([0, 0, 0, 0, 0, 0, 0, 0] : List Nat).take 8)) 0 :=
  (walker_no_policy_filter (fun _ => some 0) 8 true 4096 0 _ _ (by decide) (by decide)).1

/-- C9: the walk always terminates; with every read succeeding (e.g. on a
cyclic or self-referencing frame-pointer chain) it returns exactly
`MAX_DEPTH = 64` frames, the loop counter being a hard bound. -/
theorem walk_terminates_max_depth (mem : Mem) (tw : Nat) (lm : Bool) (eip fp : Nat)
    (h : ∀ a, (mem a).isSome) :
    (walk mem tw lm eip fp).length = MAX_DEPTH := by
  simp [walk, walkAux_total_length mem tw lm h, MAX_DEPTH]

/-- Witness for C9: the all-zero memory is a self-referencing chain (every
frame pointer decodes to 0, whose saved frame pointer is again 0); the walk
still stops, at exactly 64 frames. -/
theorem walk_terminates_max_depth_w :
    (walk (fun _ => some 0) 8 true 0 0).length = MAX_DEPTH :=
  walk_terminates_max_depth (fun _ => some 0) 8 true 0 0 (fun _ => rfl)

/-- `toLE n` always produces `n` bytes. -/
theorem toLE_length : ∀ (n v : Nat), (toLE n v).length = n := by
  intro n
  induction n with
  | zero => intro v; rfl
  | succ m ih => intro v; simp [toLE, ih]

/-- Little-endian round trip for values that fit in `n` bytes. -/
theorem fromLE_toLE : ∀ (n v : Nat), v < 256 ^ n → fromLE (toLE n v) = v := by
  intro n
  induction n with
  | zero =>
    intro v hv
    simp [Nat.pow_zero] at hv
    simp [hv, toLE, fromLE]
  | succ m ih =>
    intro v hv
    have hq : v / 256 < 256 ^ m := by
      rw [Nat.div_lt_iff_lt_mul (by omega)]
      calc v < 256 ^ (m + 1) := hv
        _ = 256 ^ m * 256 := by rw [Nat.pow_succ]
    simp [toLE, fromLE, Nat.mod_mod_of_dvd, ih (v / 256) hq]
    omega

/-- The frame area of an encoded sample is 8 bytes per frame. -/
theorem flatMap_toLE_length : ∀ (fs : List Nat), (fs.flatMap (toLE 8)).length = 8 * fs.length := by
  intro fs
  induction fs with
  | nil => rfl
  | cons v t ih => simp [ih, toLE_length]; omega

/-- Parsing the frame area of an encoded sample recovers the frames. -/
theorem decodeFrames_flatMap :
    ∀ (fs : List Nat), (∀ v ∈ fs, v < 2 ^ 64) →
      decodeFrames fs.length (fs.flatMap (toLE 8)) = some fs := by
  intro fs
  induction fs with
  | nil => intro; rfl
  | cons v t ih =>
    intro hv
    have hvlt : v < 256 ^ 8 := by
      have := hv v (by simp)
      omega
    have hlen : (toLE 8 v).length = 8 := toLE_length 8 v
    have hbs : ((v :: t).flatMap (toLE 8)).length = 8 * (t.length + 1) := by
      simpa using flatMap_toLE_length (v :: t)
    show decodeFrames (t.length + 1) ((v :: t).flatMap (toLE 8)) = _
    rw [decodeFrames, if_pos (by omega)]
    rw [List.flatMap_cons, List.take_left' hlen, List.drop_left' hlen,
      ih (fun x hx => hv x (by simp [hx])), fromLE_toLE 8 v hvlt]

/-- C3: the encoder emits exactly one count byte (the frame count, which fits
an unsigned 8-bit value since it is at most `MAX_DEPTH = 64`) followed by
`8 * length` bytes of little-endian 64-bit frames in capture order, and
parsing the result by the §6 record grammar reproduces the frame count and
frame values exactly. -/
theorem encode_round_trip (frames : List Nat)
    (h1 : 1 ≤ frames.length) (h2 : frames.length ≤ 64)
    (hv : ∀ v ∈ frames, v < 2 ^ 64) :
    encode frames = frames.length :: frames.flatMap (toLE 8) ∧
    (encode frames).length = 1 + 8 * frames.length ∧
    decodeRecord (encode frames) = some (frames.length, frames) := by
  have hmod : frames.length % 256 = frames.length := Nat.mod_eq_of_lt (by omega)
  refine ⟨by rw [encode, hmod], ?_, ?_⟩
  · rw [encode]
    simp only [List.length_cons, flatMap_toLE_length]
    omega
  · rw [encode, hmod, decodeRecord, decodeFrames_flatMap frames hv]

/-- Witness for C3 on the two-frame sample `[4096, 8192]`. -/
theorem encode_round_trip_w :
    decodeRecord (encode [4096, 8192]) = some (([4096, 8192] : List Nat).length, [4096, 8192]) :=
  (encode_round_trip [4096, 8192] (by decide) (by decide) (by decide)).2.2

/-- C7: per-sample failure isolation — on a due invocation the gate state the
hook leaves behind is `advance now sample_delay` no matter what the guest
memory lets the walker read and no matter whether the output write succeeds,
so a walk or write failure in one sample never changes any later invocation;
the hook always returns (a write failure only sets the warning). -/
theorem hook_failure_isolation (sample_delay : Int) (next_sample_ts now : Timeval)
    (tw : Nat) (lm : Bool) (eip fp : Nat) (mem mem' : Mem) (w w' : Bool)
    (hdue : should_sample next_sample_ts now = true) :
    (vcpu_insn_exec sample_delay next_sample_ts now tw lm eip fp mem w).next_sample_ts
        = advance now sample_delay ∧
    (vcpu_insn_exec sample_delay next_sample_ts now tw lm eip fp mem w).next_sample_ts
        = (vcpu_insn_exec sample_delay next_sample_ts now tw lm eip fp mem' w').next_sample_ts := by
  simp [vcpu_insn_exec, hdue]

/-- Witness for C7: a due invocation with unreadable memory and a failing
write leaves the same gate state as one with readable memory and a
successful write. -/
theorem hook_failure_isolation_w :
    (vcpu_insn_exec 10 ⟨0, 0⟩ ⟨0, 0⟩ 8 true 1 2 (fun _ => none) false).next_sample_ts
        = advance ⟨0, 0⟩ 10 ∧
    (vcpu_insn_exec 10 ⟨0, 0⟩ ⟨0, 0⟩ 8 true 1 2 (fun _ => none) false).next_sample_ts
        = (vcpu_insn_exec 10 ⟨0, 0⟩ ⟨0, 0⟩ 8 true 1 2 (fun _ => some 0) true).next_sample_ts :=
  hook_failure_isolation 10 ⟨0, 0⟩ ⟨0, 0⟩ 8 true 1 2 (fun _ => none) (fun _ => some 0)
    false true (by decide)

/-- An argument without `'='` is never split. -/
theorem splitEq_eq_none (a : List Char) (h : ('=' : Char) ∉ a) : splitEq a = none := by
  induction a with
  | nil => rfl
  | cons c rest ih =>
    simp only [List.mem_cons, not_or] at h
    rw [splitEq, if_neg (fun hc => h.1 hc.symm), ih h.2]

/-- C8 counterexample: `delay=-1` is a bad interval (the spec requires a
non-negative number of microseconds), yet `qemu_plugin_install` on the
supported target `x86_64` with a writable output path accepts it — `atoi`
is applied with no validation — and returns success with `sample_delay = -1`,
registering the callbacks: a bad interval is NOT a reported startup
failure. -/
theorem install_bad_interval_counterexample :
    qemu_plugin_install "x86_64" ["delay=-1".toList] (fun _ => false)
      = .installed ("qemu-profile".toList) (-1) 8 := by
  decide

/-- C8 (amended): an unsupported target name, an unwritable output path, or a
malformed argument whose key (before `'='`) is neither `out` nor `delay`,
each makes installation return a nonzero failure code without reaching the
callback registrations; every supported configuration (known target, parsed
arguments, writable path) returns success (`installed`, i.e. callbacks
registered, return value 0).  The interval value itself is not validated. -/
theorem install_outcomes (target_name : String) (args : List (List Char))
    (open_fails : List Char → Bool) :
    (target_name ≠ "x86_64" → target_name ≠ "i386" →
      qemu_plugin_install target_name args open_fails = .failed (-1)) ∧
    (∀ out_path sample_delay,
      parseArgs args ("qemu-profile".toList) 10 = .ok out_path sample_delay →
      (open_fails out_path = true →
        qemu_plugin_install "x86_64" args open_fails = .failed 1 ∧
        qemu_plugin_install "i386" args open_fails = .failed 1) ∧
      (open_fails out_path = false →
        qemu_plugin_install "x86_64" args open_fails
            = .installed out_path sample_delay 8 ∧
        qemu_plugin_install "i386" args open_fails
            = .installed out_path sample_delay 4)) ∧
    (parseArgs args ("qemu-profile".toList) 10 = .invalid →
      qemu_plugin_install "x86_64" args open_fails = .failed (-1) ∧
      qemu_plugin_install "i386" args open_fails = .failed (-1)) := by
  refine ⟨?_, ?_, ?_⟩
  · intro h1 h2
    rw [qemu_plugin_install, if_neg h1, if_neg h2]
  · intro out_path sample_delay hok
    constructor <;> intro hop
    · constructor
      · rw [qemu_plugin_install, if_pos rfl, installWith, hok]
        simp [hop]
      · rw [qemu_plugin_install, if_neg (by decide), if_pos rfl, installWith, hok]
        simp [hop]
    · constructor
      · rw [qemu_plugin_install, if_pos rfl, installWith, hok]
        simp [hop]
      · rw [qemu_plugin_install, if_neg (by decide), if_pos rfl, installWith, hok]
        simp [hop]
  · intro hinv
    constructor
    · rw [qemu_plugin_install, if_pos rfl, installWith, hinv]
    · rw [qemu_plugin_install, if_neg (by decide), if_pos rfl, installWith, hinv]

/-- Witness for C8 (amended): the unsupported target `arm` is refused with
return code -1 and no registration. -/
theorem install_outcomes_w :
    qemu_plugin_install "arm" [] (fun _ => false) = .failed (-1) :=
  (install_outcomes "arm" [] (fun _ => false)).1 (by decide) (by decide)

/-- C10: an argument without `'='` never reaches the `invalid argument`
error return: `strchr` yields NULL, and the write through it is undefined
behaviour (`crash`), both at the argument-loop level from any intermediate
state and through `qemu_plugin_install` on a supported target. -/
theorem install_missing_eq_crash :
    (∀ (a : List Char) (rest : List (List Char)) (out_path : List Char)
        (sample_delay : Int), ('=' : Char) ∉ a →
      parseArgs (a :: rest) out_path sample_delay = .crash) ∧
    (∀ (a : List Char) (rest : List (List Char)) (open_fails : List Char → Bool),
      ('=' : Char) ∉ a →
      qemu_plugin_install "x86_64" (a :: rest) open_fails = .crash ∧
      qemu_plugin_install "x86_64" (a :: rest) open_fails ≠ .failed (-1)) := by
  have hp : ∀ (a : List Char) (rest : List (List Char)) (out_path : List Char)
      (sample_delay : Int), ('=' : Char) ∉ a →
      parseArgs (a :: rest) out_path sample_delay = .crash := by
    intro a rest out_path sample_delay h
    rw [parseArgs, splitEq_eq_none a h]
  refine ⟨hp, ?_⟩
  intro a rest open_fails h
  have hc : qemu_plugin_install "x86_64" (a :: rest) open_fails = .crash := by
    rw [qemu_plugin_install, if_pos rfl, installWith,
      hp a rest ("qemu-profile".toList) 10 h]
  exact ⟨hc, by rw [hc]; intro hcontra; cases hcontra⟩

/-- Witness for C10: the key-only argument `foo` crashes installation instead
of producing the `invalid argument` failure. -/
theorem install_missing_eq_crash_w :
    qemu_plugin_install "x86_64" ["foo".toList] (fun _ => false) = .crash :=
  (install_missing_eq_crash.2 ("foo".toList) [] (fun _ => false) (by decide)).1

end KernProfile
